import Mathlib

/-!
Verification development for the kirkify pull-based GPU job controller
(`controller.py`).  The controller keeps its mutable state in process-local
structures: two FIFO priority queues of job ids, a lease table
(job id to lease record), a worker registry, a job-document store and a
per-job event log.  We embed that state shallowly: association lists keyed by
strings model the Python dicts, `Nat` models wall-clock seconds, `Int` models
Python integers that can go negative (worker `active` counts), and the
fallible external calls (blob upload, URL signing, reading the request body)
become explicit boolean parameters of the operations.
-/

namespace Kirkify

/-- Lease record, mirroring the `_leases` entries
`{"worker_id": ..., "deadline_ts": ..., "retries": ...}` of the source.
A requeue writes the sentinel form `worker_id = None, deadline_ts = 0.0`. -/
structure Lease where
  workerId : Option String
  deadlineTs : Nat
  retries : Nat
deriving DecidableEq, Repr

/-- Worker registry entry (`_workers`); we keep the fields the dispatcher
logic reads: capacity, active count and last-seen timestamp.  `active` is an
`Int` because the lease endpoint overwrites it with the worker-reported
value, which the source never validates. -/
structure Worker where
  capacity : Int
  active : Int
  lastSeenTs : Nat
deriving DecidableEq, Repr

/-- Job document (Firestore `jobs` collection); the fields the dispatcher
reads or writes.  `set_job(..., merge=True)` on a missing document creates a
partial one, which the default field values model. -/
structure Job where
  status : String := ""
  error : Option String := none
  workerId : Option String := none
  inputPath : Option String := none
  outputPath : Option String := none
  requestedByIp : Option String := none
  filename : Option String := none
deriving DecidableEq, Repr

/-- One event of a job's event log (`push_event`).  We model the `data`
payload only where a claim needs it: the queue position attached to the
submission event. -/
structure Event where
  etype : String
  message : String
  progress : Option Nat := none
  queuePos : Option Int := none
deriving DecidableEq, Repr

/-- The controller's mutable state: the two priority queues, the lease
table, the worker registry, the job store and the (chronological) event
log. -/
structure St where
  qp0 : List String := []
  qp1 : List String := []
  leases : List (String × Lease) := []
  workers : List (String × Worker) := []
  jobs : List (String × Job) := []
  events : List (String × Event) := []
deriving DecidableEq, Repr

def St.empty : St := {}

/-! ### Association-list primitives modelling Python dict operations -/

def alistFind {α : Type} : List (String × α) → String → Option α
  | [], _ => none
  | p :: t, k => if p.1 = k then some p.2 else alistFind t k

def alistErase {α : Type} : List (String × α) → String → List (String × α)
  | [], _ => []
  | p :: t, k => if p.1 = k then alistErase t k else p :: alistErase t k

def alistSet {α : Type} (l : List (String × α)) (k : String) (v : α) : List (String × α) :=
  alistErase l k ++ [(k, v)]

theorem alistFind_erase_self {α : Type} (l : List (String × α)) (k : String) :
    alistFind (alistErase l k) k = none := by
  induction l with
  | nil => rfl
  | cons p t ih =>
    by_cases h : p.1 = k
    · simpa [alistErase, h] using ih
    · simpa [alistErase, alistFind, h] using ih

theorem alistFind_erase_ne {α : Type} (l : List (String × α)) (k k' : String) (h : k' ≠ k) :
    alistFind (alistErase l k) k' = alistFind l k' := by
  induction l with
  | nil => rfl
  | cons p t ih =>
    rw [alistErase]
    by_cases hp : p.1 = k
    · rw [if_pos hp, ih, alistFind, if_neg (fun hc : p.1 = k' => h (by rw [← hc, hp]))]
    · rw [if_neg hp, alistFind, alistFind]
      by_cases hq : p.1 = k'
      · rw [if_pos hq, if_pos hq]
      · rw [if_neg hq, if_neg hq, ih]

theorem alistFind_append_right {α : Type} (l₁ l₂ : List (String × α)) (k : String)
    (h : alistFind l₁ k = none) : alistFind (l₁ ++ l₂) k = alistFind l₂ k := by
  induction l₁ with
  | nil => rfl
  | cons p t ih =>
    by_cases hp : p.1 = k
    · simp [alistFind, hp] at h
    · simp only [alistFind, hp, if_false] at h
      simpa [alistFind, hp] using ih h

theorem alistFind_set_self {α : Type} (l : List (String × α)) (k : String) (v : α) :
    alistFind (alistSet l k v) k = some v := by
  rw [alistSet, alistFind_append_right _ _ _ (alistFind_erase_self l k)]
  simp [alistFind]

theorem alistFind_set_ne {α : Type} (l : List (String × α)) (k k' : String) (v : α)
    (h : k' ≠ k) : alistFind (alistSet l k v) k' = alistFind l k' := by
  unfold alistSet
  induction l with
  | nil =>
    show alistFind [(k, v)] k' = alistFind [] k'
    simp [alistFind, Ne.symm h]
  | cons p t ih =>
    rw [alistErase]
    by_cases hp : p.1 = k
    · rw [if_pos hp, ih, alistFind, if_neg (fun hc : p.1 = k' => h (by rw [← hc, hp]))]
    · rw [if_neg hp, List.cons_append, alistFind, alistFind]
      by_cases hq : p.1 = k'
      · rw [if_pos hq, if_pos hq]
      · rw [if_neg hq, if_neg hq, ih]

theorem alistFind_mem {α : Type} {l : List (String × α)} {k : String} {v : α}
    (h : alistFind l k = some v) : (k, v) ∈ l := by
  induction l with
  | nil => simp [alistFind] at h
  | cons p t ih =>
    by_cases hp : p.1 = k
    · simp only [alistFind, hp, if_true, Option.some.injEq] at h
      cases p with
      | mk a b =>
        simp only at hp
        subst hp
        subst h
        exact List.mem_cons_self _ _
    · simp only [alistFind, hp, if_false] at h
      exact List.mem_cons_of_mem _ (ih h)

theorem alistErase_sublist {α : Type} (l : List (String × α)) (k : String) :
    (alistErase l k).Sublist l := by
  induction l with
  | nil => simp [alistErase]
  | cons p t ih =>
    by_cases hp : p.1 = k
    · simpa [alistErase, hp] using ih.cons p
    · simpa [alistErase, hp] using ih.cons₂ p

theorem mem_keys_alistErase_ne {α : Type} {l : List (String × α)} {k a : String}
    (h : a ∈ (alistErase l k).map Prod.fst) : a ≠ k := by
  induction l with
  | nil => simp [alistErase] at h
  | cons p t ih =>
    by_cases hp : p.1 = k
    · exact ih (by simpa [alistErase, hp] using h)
    · rw [alistErase, if_neg hp, List.map_cons, List.mem_cons] at h
      rcases h with h | h
      · rw [h]; exact hp
      · exact ih h

/-- Keys of an association list are pairwise distinct (the dict property). -/
def keysNodup {α : Type} (l : List (String × α)) : Prop :=
  (l.map Prod.fst).Nodup

theorem keysNodup_erase {α : Type} {l : List (String × α)} (k : String)
    (h : keysNodup l) : keysNodup (alistErase l k) := by
  exact (((alistErase_sublist l k).map Prod.fst).nodup h : _)

theorem keysNodup_set {α : Type} {l : List (String × α)} (k : String) (v : α)
    (h : keysNodup l) : keysNodup (alistSet l k v) := by
  unfold keysNodup alistSet
  rw [List.map_append, List.nodup_append]
  refine ⟨keysNodup_erase k h, by simp, ?_⟩
  intro a ha hb
  simp only [List.map_cons, List.map_nil, List.mem_singleton] at hb
  subst hb
  exact mem_keys_alistErase_ne ha rfl

/-- With pairwise-distinct keys, any key owns at most one entry: the
"at most one active lease per job id" reading of the lease dict. -/
theorem keysNodup_count_le_one {α : Type} {l : List (String × α)}
    (h : keysNodup l) (k : String) : (l.filter (fun p => p.1 == k)).length ≤ 1 := by
  induction l with
  | nil => simp
  | cons p t ih =>
    simp only [keysNodup, List.map_cons, List.nodup_cons] at h
    rw [List.filter_cons]
    by_cases hp : p.1 = k
    · have hnil : t.filter (fun q => q.1 == k) = [] := by
        rw [List.filter_eq_nil_iff]
        intro q hq hqk
        simp only [beq_iff_eq] at hqk
        exact h.1 (by
          rw [hp, ← hqk]
          exact List.mem_map_of_mem Prod.fst hq)
      simp [hp, hnil]
    · have hpk : (p.1 == k) = false := by simpa using hp
      rw [hpk]
      simp only [Bool.false_eq_true, if_false]
      exact ih h.2

/-! ### Configuration constants (controller.py defaults) -/

def JOB_LEASE_TIMEOUT_SEC : Nat := 180

def TOTAL_JOB_TIMEOUT_SEC : Nat := 300

/-! ### Filename sanitizer (`safe_filename`, controller.py lines 253-256)

`safe_filename` takes the basename, strips surrounding whitespace, falls
back to `"upload.bin"` when empty, replaces each maximal run of characters
matching `[^\w.\-]+` by a single underscore and truncates to 120 code
points.  Python's `\w` on a `str` pattern is Unicode-aware, so we keep the
word-character predicate abstract: the source program is
`safe_filename_gen w` where `w` is Python's word predicate (which keeps
the underscore, `w '_' = true`), and `safe_filename` instantiates the
predicate with its ASCII fragment `pyIsWordChar`, coinciding with the
source exactly on ASCII input.  Statements proved for every predicate that
keeps the underscore therefore hold of the program on all inputs. -/

/-- The ASCII fragment of Python's `\w`: `[A-Za-z0-9_]`.  Python's `re`
additionally matches non-ASCII Unicode word characters, which no ASCII
string contains. -/
def pyIsWordChar (c : Char) : Bool :=
  c.isAlphanum || c == '_'

/-- The character class `[\w.\-]` kept by the substitution, for an
arbitrary word-character predicate. -/
def allowedCharGen (isWord : Char → Bool) (c : Char) : Bool :=
  isWord c || c == '.' || c == '-'

/-- `[A-Za-z0-9._-]`: the kept class at the ASCII word predicate. -/
def allowedChar (c : Char) : Bool :=
  allowedCharGen pyIsWordChar c

def pyIsSpace (c : Char) : Bool :=
  c == ' ' || c == '\t' || c == '\n' || c == '\r' || c == '\x0b' || c == '\x0c'

/-- `os.path.basename` on POSIX: the part after the last slash. -/
def pyBasename (l : List Char) : List Char :=
  (l.reverse.takeWhile (fun c => c != '/')).reverse

/-- `str.strip()`: drop whitespace from both ends. -/
def pyStrip (l : List Char) : List Char :=
  ((l.dropWhile pyIsSpace).reverse.dropWhile pyIsSpace).reverse

/-- `re.sub(r"[^\w.\-]+", "_", base)`: each maximal nonempty run of
disallowed characters becomes a single underscore.  The flag records
whether we are inside such a run (its underscore already emitted). -/
def subRunsAux (isWord : Char → Bool) : Bool → List Char → List Char
  | _, [] => []
  | inRun, c :: cs =>
    if allowedCharGen isWord c then c :: subRunsAux isWord false cs
    else if inRun then subRunsAux isWord true cs
    else '_' :: subRunsAux isWord true cs

def subRuns (isWord : Char → Bool) (l : List Char) : List Char :=
  subRunsAux isWord false l

/-- The sanitizer with the word-character predicate abstracted; the source
is this function applied to Python's Unicode-aware `\w`. -/
def safe_filename_gen (isWord : Char → Bool) (name : String) : String :=
  let base := pyStrip (pyBasename name.data)
  let base := if base.isEmpty then "upload.bin".data else base
  ⟨(subRuns isWord base).take 120⟩

/-- The ASCII instantiation of the sanitizer, agreeing with the source on
ASCII input (where Python's `\w` is exactly `[A-Za-z0-9_]`). -/
def safe_filename (name : String) : String :=
  safe_filename_gen pyIsWordChar name

/-! ### Response types of the worker/job endpoints -/

inductive SimpleResp where
  | ok
  | httpError (code : Nat) (detail : String)
deriving DecidableEq, Repr

/-- What a `/api/worker/lease` call hands back on success. -/
structure LeaseInfo where
  jobId : String
  filename : String
  deadlineTs : Nat
deriving DecidableEq, Repr

inductive LeaseResp where
  | httpError (code : Nat) (detail : String)
  | noLease (waitSec : Nat)
  | granted (info : LeaseInfo)
deriving DecidableEq, Repr

inductive ResultResp where
  | okTrue
  | okFalse (error : String)
  | httpError (code : Nat) (detail : String)
deriving DecidableEq, Repr

inductive CreateResp where
  | created (id : String)
  | httpError (code : Nat) (detail : String)
deriving DecidableEq, Repr

inductive RetryResp where
  | newJob (id : String)
  | httpError (code : Nat) (detail : String)
deriving DecidableEq, Repr

/-! ### Queue helpers (controller.py lines 402-422) -/

def enqueue_job (s : St) (jid : String) (priority : Bool := false) : St :=
  if priority then { s with qp0 := s.qp0 ++ [jid] }
  else { s with qp1 := s.qp1 ++ [jid] }

def dequeue_job (s : St) : Option String × St :=
  match s.qp0 with
  | j :: rest => (some j, { s with qp0 := rest })
  | [] =>
    match s.qp1 with
    | j :: rest => (some j, { s with qp1 := rest })
    | [] => (none, s)

/-- `_remove_from_queue`: one `deque.remove` per level, i.e. the first
occurrence of the id is dropped from each queue. -/
def remove_from_queue (s : St) (jid : String) : St :=
  { s with qp0 := s.qp0.erase jid, qp1 := s.qp1.erase jid }

/-! ### Firestore-side helpers (`push_event`, `set_job`) -/

def push_event (s : St) (jid : String) (etype message : String)
    (progress : Option Nat := none) (qpos : Option Int := none) : St :=
  { s with events := s.events ++ [(jid, ⟨etype, message, progress, qpos⟩)] }

/-- `set_job(job_id, fields)` with `merge=True`: update the stored document,
creating a blank one first when absent. -/
def set_job (s : St) (jid : String) (f : Job → Job) : St :=
  { s with jobs := alistSet s.jobs jid (f ((alistFind s.jobs jid).getD {})) }

/-- Decrement a worker's active count, clamped at zero
(`max(0, int(w.get("active", 0)) - 1)`). -/
def decWorkerActive (s : St) (wid : String) : St :=
  match alistFind s.workers wid with
  | none => s
  | some w => { s with workers := alistSet s.workers wid { w with active := max 0 (w.active - 1) } }

/-! ### Worker registration and heartbeat (controller.py lines 498-541) -/

/-- `worker_register`: the fresh `uuid4` id is a parameter.  Capacity is
clamped below by 1 (`max(1, int(req.capacity or 1))`), `active` starts
at 0. -/
def worker_register (s : St) (wid : String) (reqCapacity : Int) (now : Nat) : St :=
  { s with workers := alistSet s.workers wid ⟨max 1 reqCapacity, 0, now⟩ }

def worker_heartbeat (s : St) (wid : String) (now : Nat) : SimpleResp × St :=
  match alistFind s.workers wid with
  | none => (.httpError 404 "unknown worker_id", s)
  | some w => (.ok, { s with workers := alistSet s.workers wid { w with lastSeenTs := now } })

/-! ### Lease endpoint (controller.py lines 544-616)

`signOk` stands for the external `sign_url` call succeeding; a job document
read never fails in the model (the id either is or is not in the store). -/

def worker_lease (s : St) (wid : String) (wants reportedActive : Int) (now : Nat)
    (signOk : Bool) : LeaseResp × St :=
  let wants := max 0 wants
  match alistFind s.workers wid with
  | none => (.httpError 404 "unknown worker_id", s)
  | some w =>
    let w := { w with lastSeenTs := now, active := reportedActive }
    let s := { s with workers := alistSet s.workers wid w }
    let free := max 0 (w.capacity - w.active)
    let grant := min wants (min free 1)
    if grant ≤ 0 then (.noLease 2, s)
    else
      match dequeue_job s with
      | (none, s) => (.noLease 2, s)
      | (some jid, s) =>
        match alistFind s.jobs jid with
        | none => (.noLease 2, s)
        | some job =>
          match job.inputPath with
          | none =>
            let s := set_job s jid (fun j => { j with status := "failed", error := some "missing input_path" })
            let s := push_event s jid "error" "missing input_path"
            (.noLease 1, s)
          | some _ =>
            if !signOk then
              let s := set_job s jid (fun j => { j with status := "failed", error := some "sign_url failed" })
              let s := push_event s jid "error" "sign_url failed"
              (.noLease 1, s)
            else
              let retries := (alistFind s.leases jid).elim 0 Lease.retries
              let s := { s with
                workers := alistSet s.workers wid { w with active := w.active + 1 },
                leases := alistSet s.leases jid ⟨some wid, now + JOB_LEASE_TIMEOUT_SEC, retries⟩ }
              let s := set_job s jid (fun j => { j with status := "processing", workerId := some wid })
              let s := push_event s jid "state" "processing" (some 40)
              (.granted ⟨jid, job.filename.getD "upload.jpg", now + JOB_LEASE_TIMEOUT_SEC⟩, s)

/-! ### Result endpoint (controller.py lines 619-673) -/

def worker_result (s : St) (wid jid : String) (readOk uploadOk : Bool) : ResultResp × St :=
  match alistFind s.leases jid, alistFind s.workers wid with
  | some lease, some _ =>
    if lease.workerId = some wid then
      if !readOk then (.httpError 400 "read upload failed", s)
      else if !uploadOk then
        let s := decWorkerActive s wid
        let s := { s with leases := alistErase s.leases jid }
        let s := set_job s jid (fun j => { j with status := "failed", error := some "output upload error" })
        let s := push_event s jid "error" "upload output error"
        (.okFalse "upload_failed", s)
      else
        let s := set_job s jid (fun j =>
          { j with
            status := "completed"
            outputPath := some ("jobs/" ++ jid ++ "/output/output.jpg") })
        let s := push_event s jid "done" "completed" (some 100)
        let s := decWorkerActive s wid
        let s := { s with leases := alistErase s.leases jid }
        (.okTrue, s)
    else (.httpError 400 "invalid lease or worker_id", s)
  | _, _ => (.httpError 400 "invalid lease or worker_id", s)

/-! ### Error endpoint (controller.py lines 682-714) -/

def worker_error (s : St) (wid jid : String) (errText : String) : SimpleResp × St :=
  let lease := alistFind s.leases jid
  match alistFind s.workers wid with
  | none => (.httpError 404 "unknown worker", s)
  | some _ =>
    let s := decWorkerActive s wid
    let s := { s with leases := alistErase s.leases jid }
    let retries := lease.elim 0 Lease.retries
    if retries < 3 then
      let s := set_job s jid (fun j => { j with status := "queued", error := none })
      let s := { s with leases := alistSet s.leases jid ⟨none, 0, retries + 1⟩ }
      let s := enqueue_job s jid
      let s := push_event s jid "info" ("requeued after error: " ++ errText) (some 5)
      (.ok, s)
    else
      let s := set_job s jid (fun j => { j with status := "failed", error := some errText })
      let s := push_event s jid "error" errText
      (.ok, s)

/-! ### Submission (`_create_job_common`, controller.py lines 723-786)

The fresh job id and the caller's observed ip are parameters; `readOk` and
`uploadOk` stand for reading the request body and the blob upload. -/

def create_job_common (s : St) (jid rawFilename callerIp : String)
    (prioIps : List String) (readOk uploadOk : Bool) : CreateResp × St :=
  let isPrio := prioIps.contains callerIp
  if !readOk then (.httpError 400 "read upload failed", s)
  else
    let fname := safe_filename rawFilename
    if !uploadOk then (.httpError 500 "GCS upload failed", s)
    else
      let job : Job :=
        { status := "queued"
          requestedByIp := some callerIp
          filename := some fname
          inputPath := some ("jobs/" ++ jid ++ "/input/" ++ safe_filename fname) }
      let s := { s with jobs := alistSet s.jobs jid job }
      let activeNow : Int := (s.workers.map (fun p => p.2.active)).sum
      let position : Int :=
        if isPrio then (s.qp0.length : Int) + activeNow + 1
        else (s.qp0.length : Int) + (s.qp1.length : Int) + activeNow + 1
      let s := if isPrio then { s with qp0 := s.qp0 ++ [jid] }
               else { s with qp1 := s.qp1 ++ [jid] }
      let s := push_event s jid "info" "job queued" (some 1) (some position)
      (.created jid, s)

/-! ### Admin cancel and retry (controller.py lines 873-932) -/

def job_cancel (s : St) (jid : String) : SimpleResp × St :=
  match alistFind s.jobs jid with
  | none => (.httpError 404 "Not found", s)
  | some _ =>
    let lease := alistFind s.leases jid
    let s := { s with leases := alistErase s.leases jid }
    let s :=
      match lease with
      | some l =>
        match l.workerId with
        | some lwid => if (alistFind s.workers lwid).isSome then decWorkerActive s lwid else s
        | none => s
      | none => s
    let s := remove_from_queue s jid
    let s := set_job s jid (fun j => { j with status := "canceled" })
    let s := push_event s jid "state" "canceled" (some 0)
    (.ok, s)

def job_retry (s : St) (jid newId : String) (prioIps : List String) : RetryResp × St :=
  match alistFind s.jobs jid with
  | none => (.httpError 404 "Not found", s)
  | some j =>
    match j.inputPath with
    | none => (.httpError 400 "no input_path", s)
    | some ip =>
      let newJob : Job :=
        { status := "queued"
          requestedByIp := j.requestedByIp
          filename := j.filename
          inputPath := some ip }
      let s := { s with jobs := alistSet s.jobs newId newJob }
      let isPrio := prioIps.contains (j.requestedByIp.getD "")
      let s := enqueue_job s newId isPrio
      let s := push_event s newId "info" "job queued (retry)" (some 1)
      (.newJob newId, s)

/-! ### Lease sweeper (controller.py lines 1238-1286)

One iteration of the background loop: collect the lease entries whose
deadline is non-zero (Python truthiness of `deadline_ts`) and past, then
process each expired id. -/

def expiredIds (s : St) (now : Nat) : List String :=
  (s.leases.filter (fun p => p.2.deadlineTs != 0 && decide (now > p.2.deadlineTs))).map Prod.fst

def sweepOne (s : St) (jid : String) : St :=
  match alistFind s.leases jid with
  | none => s
  | some lease =>
    let s := { s with leases := alistErase s.leases jid }
    let s :=
      match lease.workerId with
      | some lwid => if (alistFind s.workers lwid).isSome then decWorkerActive s lwid else s
      | none => s
    if lease.retries < 3 then
      let s := { s with leases := alistSet s.leases jid ⟨none, 0, lease.retries + 1⟩ }
      let s := set_job s jid (fun j => { j with status := "queued", error := none })
      let s := enqueue_job s jid
      push_event s jid "info" "lease expired; requeued" (some 5)
    else
      let s := set_job s jid (fun j => { j with status := "failed", error := some "lease expired" })
      push_event s jid "error" "lease expired"

def lease_sweeper_tick (s : St) (now : Nat) : St :=
  (expiredIds s now).foldl sweepOne s

/-! ### Field-preservation lemmas for the state helpers -/

@[simp] theorem set_job_qp0 (s : St) (jid : String) (f : Job → Job) : (set_job s jid f).qp0 = s.qp0 := rfl

@[simp] theorem set_job_qp1 (s : St) (jid : String) (f : Job → Job) : (set_job s jid f).qp1 = s.qp1 := rfl

@[simp] theorem set_job_leases (s : St) (jid : String) (f : Job → Job) : (set_job s jid f).leases = s.leases := rfl

@[simp] theorem set_job_workers (s : St) (jid : String) (f : Job → Job) : (set_job s jid f).workers = s.workers := rfl

@[simp] theorem set_job_events (s : St) (jid : String) (f : Job → Job) : (set_job s jid f).events = s.events := rfl

@[simp] theorem push_event_qp0 (s : St) (jid e m : String) (pr : Option Nat) (qp : Option Int) : (push_event s jid e m pr qp).qp0 = s.qp0 := rfl

@[simp] theorem push_event_qp1 (s : St) (jid e m : String) (pr : Option Nat) (qp : Option Int) : (push_event s jid e m pr qp).qp1 = s.qp1 := rfl

@[simp] theorem push_event_leases (s : St) (jid e m : String) (pr : Option Nat) (qp : Option Int) : (push_event s jid e m pr qp).leases = s.leases := rfl

@[simp] theorem push_event_workers (s : St) (jid e m : String) (pr : Option Nat) (qp : Option Int) : (push_event s jid e m pr qp).workers = s.workers := rfl

@[simp] theorem push_event_jobs (s : St) (jid e m : String) (pr : Option Nat) (qp : Option Int) : (push_event s jid e m pr qp).jobs = s.jobs := rfl

theorem decWorkerActive_qp0 (s : St) (wid : String) : (decWorkerActive s wid).qp0 = s.qp0 := by
  unfold decWorkerActive
  cases alistFind s.workers wid <;> rfl

theorem decWorkerActive_qp1 (s : St) (wid : String) : (decWorkerActive s wid).qp1 = s.qp1 := by
  unfold decWorkerActive
  cases alistFind s.workers wid <;> rfl

theorem decWorkerActive_leases (s : St) (wid : String) : (decWorkerActive s wid).leases = s.leases := by
  unfold decWorkerActive
  cases alistFind s.workers wid <;> rfl

theorem decWorkerActive_jobs (s : St) (wid : String) : (decWorkerActive s wid).jobs = s.jobs := by
  unfold decWorkerActive
  cases alistFind s.workers wid <;> rfl

theorem decWorkerActive_events (s : St) (wid : String) : (decWorkerActive s wid).events = s.events := by
  unfold decWorkerActive
  cases alistFind s.workers wid <;> rfl

theorem enqueue_job_leases (s : St) (jid : String) (p : Bool) : (enqueue_job s jid p).leases = s.leases := by
  unfold enqueue_job
  split <;> rfl

theorem enqueue_job_jobs (s : St) (jid : String) (p : Bool) : (enqueue_job s jid p).jobs = s.jobs := by
  unfold enqueue_job
  split <;> rfl

theorem enqueue_job_workers (s : St) (jid : String) (p : Bool) : (enqueue_job s jid p).workers = s.workers := by
  unfold enqueue_job
  split <;> rfl

theorem enqueue_job_events (s : St) (jid : String) (p : Bool) : (enqueue_job s jid p).events = s.events := by
  unfold enqueue_job
  split <;> rfl

/-! ### Dequeue characterization -/

theorem dequeue_job_some {s : St} {j : String} {s' : St}
    (h : dequeue_job s = (some j, s')) :
    s.qp0 ++ s.qp1 = j :: (s'.qp0 ++ s'.qp1) ∧ s'.leases = s.leases ∧
    s'.workers = s.workers ∧ s'.jobs = s.jobs ∧ s'.events = s.events := by
  unfold dequeue_job at h
  rcases hq0 : s.qp0 with _ | ⟨a, t⟩ <;> rw [hq0] at h
  · rcases hq1 : s.qp1 with _ | ⟨b, u⟩ <;> rw [hq1] at h
    · simp at h
    · simp only [Prod.mk.injEq, Option.some.injEq] at h
      obtain ⟨hbj, hs⟩ := h
      subst hbj
      subst hs
      simp [hq0, hq1]
  · simp only [Prod.mk.injEq, Option.some.injEq] at h
    obtain ⟨haj, hs⟩ := h
    subst haj
    subst hs
    simp [hq0]

/-! ### Properties of the filename sanitizer -/

theorem subRunsAux_mem_allowed (isWord : Char → Bool) (hu : isWord '_' = true) :
    ∀ (b : Bool) (l : List Char) (c : Char),
    c ∈ subRunsAux isWord b l → allowedCharGen isWord c = true := by
  intro b l
  induction l generalizing b with
  | nil =>
    intro c h
    simp [subRunsAux] at h
  | cons d t ih =>
    intro c h
    rw [subRunsAux] at h
    by_cases hd : allowedCharGen isWord d
    · rw [if_pos hd] at h
      rcases List.mem_cons.mp h with h | h
      · exact h ▸ hd
      · exact ih false c h
    · rw [if_neg hd] at h
      cases b with
      | true => exact ih true c (by simpa using h)
      | false =>
        rcases List.mem_cons.mp (by simpa using h) with h | h
        · rw [h]
          simp [allowedCharGen, hu]
        · exact ih true c h

theorem subRunsAux_ne_nil (isWord : Char → Bool) {l : List Char} (h : l ≠ []) :
    subRunsAux isWord false l ≠ [] := by
  cases l with
  | nil => exact absurd rfl h
  | cons d t =>
    rw [subRunsAux]
    by_cases hd : allowedCharGen isWord d
    · simp [hd]
    · simp [hd]

theorem safe_filename_gen_length_le (isWord : Char → Bool) (name : String) :
    (safe_filename_gen isWord name).length ≤ 120 := by
  show (List.take 120 _).length ≤ 120
  rw [List.length_take]
  exact Nat.min_le_left _ _

theorem safe_filename_gen_chars_allowed (isWord : Char → Bool) (hu : isWord '_' = true)
    (name : String) :
    ∀ c ∈ (safe_filename_gen isWord name).data, allowedCharGen isWord c = true := by
  intro c hc
  have hc' : c ∈ subRuns isWord (if (pyStrip (pyBasename name.data)).isEmpty
      then "upload.bin".data else pyStrip (pyBasename name.data)) :=
    List.mem_of_mem_take (by simpa [safe_filename_gen] using hc)
  exact subRunsAux_mem_allowed isWord hu false _ c hc'

theorem safe_filename_gen_ne_empty (isWord : Char → Bool) (name : String) :
    safe_filename_gen isWord name ≠ "" := by
  unfold safe_filename_gen
  intro hcontra
  have hdata : (subRuns isWord (if (pyStrip (pyBasename name.data)).isEmpty
      then "upload.bin".data else pyStrip (pyBasename name.data))).take 120 = [] := by
    simpa using congrArg String.data hcontra
  have hne : (if (pyStrip (pyBasename name.data)).isEmpty
      then "upload.bin".data else pyStrip (pyBasename name.data)) ≠ [] := by
    split
    · decide
    · rename_i hemp
      simpa [List.isEmpty_iff] using hemp
  have : subRuns isWord (if (pyStrip (pyBasename name.data)).isEmpty
      then "upload.bin".data else pyStrip (pyBasename name.data)) ≠ [] :=
    subRunsAux_ne_nil isWord hne
  rcases hx : subRuns isWord (if (pyStrip (pyBasename name.data)).isEmpty
      then "upload.bin".data else pyStrip (pyBasename name.data)) with _ | ⟨a, t⟩
  · exact this hx
  · rw [hx] at hdata
    simp [List.take] at hdata

/-- What the claim literally says the sanitizer does: keep the basename and
replace every character outside `[A-Za-z0-9._-]` by an underscore,
character by character, capping at 120.  (Stated from the spec's words, for
comparison against `safe_filename`, which is translated from the source.) -/
def claim_charwise_sanitize (name : String) : String :=
  ⟨((pyBasename name.data).map (fun c => if allowedChar c then c else '_')).take 120⟩

/-- C7 counterexample: on `"a  b"` the source's `safe_filename` collapses
the run of two spaces into a single underscore, returning `"a_b"`, while
the claim's character-by-character replacement would give `"a__b"`.  So the
sanitizer does not replace every disallowed character with its own
underscore. -/
theorem c7_counterexample :
    safe_filename "a  b" = "a_b" ∧ claim_charwise_sanitize "a  b" = "a__b" ∧
    ("a_b" : String) ≠ "a__b" := by
  refine ⟨by decide, by decide, by decide⟩

/-- C7 amended: `safe_filename` keeps only the basename (falling back to
`"upload.bin"` after stripping), replaces each maximal run of characters
outside the kept class `[\w.\-]` by a single underscore, and caps the
result at 120 characters.  The first part holds for every word-character
predicate that keeps the underscore — in particular for Python's actual
Unicode-aware `\w` — so for every input the program's result is nonempty,
at most 120 characters long, and made only of word characters, dots and
dashes.  The second part is the concrete claim charset: for ASCII input,
where Python's `\w` is exactly `[A-Za-z0-9_]` and the ASCII instantiation
`safe_filename` coincides with the source, every result character lies in
`[A-Za-z0-9._-]` (and 120 characters are 120 bytes). -/
theorem c7_amended :
    (∀ (isWord : Char → Bool), isWord '_' = true → ∀ name : String,
      (safe_filename_gen isWord name).length ≤ 120 ∧
      (∀ c ∈ (safe_filename_gen isWord name).data, allowedCharGen isWord c = true) ∧
      safe_filename_gen isWord name ≠ "")
    ∧ (∀ name : String, (∀ c ∈ name.data, c.toNat < 128) →
      (safe_filename name).length ≤ 120 ∧
      (∀ c ∈ (safe_filename name).data, allowedChar c = true) ∧
      safe_filename name ≠ "") :=
  ⟨fun isWord hu name =>
    ⟨safe_filename_gen_length_le isWord name,
     safe_filename_gen_chars_allowed isWord hu name,
     safe_filename_gen_ne_empty isWord name⟩,
   fun name _ =>
    ⟨safe_filename_gen_length_le pyIsWordChar name,
     safe_filename_gen_chars_allowed pyIsWordChar (by decide) name,
     safe_filename_gen_ne_empty pyIsWordChar name⟩⟩

/-- C7 witness: the generic guarantee applied at the ASCII word predicate
and the ASCII-charset guarantee applied to the all-ASCII input
`"dir/a b.jpg"`. -/
theorem c7_witness :
    ((safe_filename_gen pyIsWordChar "dir/a b.jpg").length ≤ 120 ∧
      (∀ c ∈ (safe_filename_gen pyIsWordChar "dir/a b.jpg").data,
        allowedCharGen pyIsWordChar c = true) ∧
      safe_filename_gen pyIsWordChar "dir/a b.jpg" ≠ "") ∧
    ((safe_filename "dir/a b.jpg").length ≤ 120 ∧
      (∀ c ∈ (safe_filename "dir/a b.jpg").data, allowedChar c = true) ∧
      safe_filename "dir/a b.jpg" ≠ "") :=
  ⟨c7_amended.1 pyIsWordChar (by decide) "dir/a b.jpg",
   c7_amended.2 "dir/a b.jpg" (by decide)⟩

/-- C8 counterexample: a submission from a priority ip with one job already
waiting in P1 gets queue position `|P0| + active + 1 = 1` in its enqueue
event, not `|P0| + |P1| + active + 1 = 2`: the position formula is not the
same regardless of priority. -/
theorem c8_counterexample :
    ((create_job_common { St.empty with qp1 := ["x"] } "j2" "a.jpg" "1.2.3.4"
        ["1.2.3.4"] true true).2.events.map (fun p => p.2.queuePos)) = [some 1] ∧
    (1 : Int) ≠ 0 + 1 + 0 + 1 := by
  refine ⟨by decide, by decide⟩

/-- C8 amended: the `info` event emitted at enqueue time carries the
estimated queue position measured on the pre-submission state: for a
priority submitter it is `|P0| + active + 1` (the P1 backlog is ignored),
and for a normal submitter it is `|P0| + |P1| + active + 1`; the job id is
then appended to the matching queue level. -/
theorem c8_amended (s : St) (jid fn ip : String) (ips : List String) :
    (create_job_common s jid fn ip ips true true).2.events =
      s.events ++ [(jid, ⟨"info", "job queued", some 1,
        some (if ips.contains ip
          then (s.qp0.length : Int) + (s.workers.map (fun p => p.2.active)).sum + 1
          else (s.qp0.length : Int) + (s.qp1.length : Int) + (s.workers.map (fun p => p.2.active)).sum + 1)⟩)] ∧
    (if ips.contains ip
      then (create_job_common s jid fn ip ips true true).2.qp0 = s.qp0 ++ [jid] ∧
           (create_job_common s jid fn ip ips true true).2.qp1 = s.qp1
      else (create_job_common s jid fn ip ips true true).2.qp0 = s.qp0 ∧
           (create_job_common s jid fn ip ips true true).2.qp1 = s.qp1 ++ [jid]) := by
  by_cases hp : ip ∈ ips
  · have hc : ips.contains ip = true := by simpa using hp
    simp [create_job_common, hc, hp, push_event]
  · have hc : ips.contains ip = false := by simpa using hp
    simp [create_job_common, hc, hp, push_event]

/-! ### Shape lemmas for the lease endpoint -/

theorem worker_lease_fst_shape (s : St) (wid : String) (wants act : Int) (now : Nat)
    (sg : Bool) :
    (alistFind s.workers wid = none ∧
      (worker_lease s wid wants act now sg).1 = .httpError 404 "unknown worker_id") ∨
    (worker_lease s wid wants act now sg).1 = .noLease 2 ∨
    (worker_lease s wid wants act now sg).1 = .noLease 1 ∨
    (∃ info, (worker_lease s wid wants act now sg).1 = .granted info) := by
  unfold worker_lease
  cases hfind : alistFind s.workers wid with
  | none => exact .inl ⟨rfl, rfl⟩
  | some w =>
    dsimp only
    split
    · exact .inr (.inl rfl)
    · split
      · exact .inr (.inl rfl)
      · split
        · exact .inr (.inl rfl)
        · split
          · exact .inr (.inr (.inl rfl))
          · split
            · exact .inr (.inr (.inl rfl))
            · exact .inr (.inr (.inr ⟨_, rfl⟩))

theorem worker_lease_granted_spec (s : St) (wid : String) (wants act : Int) (now : Nat)
    (sg : Bool) (info : LeaseInfo)
    (h : (worker_lease s wid wants act now sg).1 = .granted info) :
    ∃ w s₁,
      alistFind s.workers wid = some w ∧
      dequeue_job { s with workers := alistSet s.workers wid { w with lastSeenTs := now, active := act } }
        = (some info.jobId, s₁) ∧
      (worker_lease s wid wants act now sg).2.qp0 = s₁.qp0 ∧
      (worker_lease s wid wants act now sg).2.qp1 = s₁.qp1 ∧
      (worker_lease s wid wants act now sg).2.leases =
        alistSet s.leases info.jobId
          ⟨some wid, now + JOB_LEASE_TIMEOUT_SEC, (alistFind s.leases info.jobId).elim 0 Lease.retries⟩ := by
  have key : ∀ (res : LeaseResp) (s₂ : St), worker_lease s wid wants act now sg = (res, s₂) →
      res = .granted info →
      ∃ w s₁,
        alistFind s.workers wid = some w ∧
        dequeue_job { s with workers := alistSet s.workers wid { w with lastSeenTs := now, active := act } }
          = (some info.jobId, s₁) ∧
        s₂.qp0 = s₁.qp0 ∧ s₂.qp1 = s₁.qp1 ∧
        s₂.leases = alistSet s.leases info.jobId
          ⟨some wid, now + JOB_LEASE_TIMEOUT_SEC, (alistFind s.leases info.jobId).elim 0 Lease.retries⟩ := by
    intro res s₂ hr hres
    rw [worker_lease] at hr
    cases hfind : alistFind s.workers wid
    case none =>
      rw [hfind] at hr
      dsimp only at hr
      rw [Prod.mk.injEq] at hr
      obtain ⟨h1, h2⟩ := hr
      subst h1
      simp at hres
    case some w =>
      rw [hfind] at hr
      dsimp only at hr
      split at hr
      case isTrue =>
        rw [Prod.mk.injEq] at hr
        obtain ⟨h1, h2⟩ := hr
        subst h1
        simp at hres
      case isFalse =>
        rcases hdq : dequeue_job
            { s with workers := alistSet s.workers wid { w with lastSeenTs := now, active := act } }
          with ⟨o, s₁⟩
        rw [hdq] at hr
        cases o with
        | none =>
          dsimp only at hr
          rw [Prod.mk.injEq] at hr
          obtain ⟨h1, h2⟩ := hr
          subst h1
          simp at hres
        | some jid =>
          dsimp only at hr
          cases hjob : alistFind s₁.jobs jid with
          | none =>
            rw [hjob] at hr
            dsimp only at hr
            rw [Prod.mk.injEq] at hr
            obtain ⟨h1, h2⟩ := hr
            subst h1
            simp at hres
          | some job =>
            rw [hjob] at hr
            dsimp only at hr
            cases hip : job.inputPath with
            | none =>
              rw [hip] at hr
              dsimp only at hr
              rw [Prod.mk.injEq] at hr
              obtain ⟨h1, h2⟩ := hr
              subst h1
              simp at hres
            | some ipath =>
              rw [hip] at hr
              dsimp only at hr
              by_cases hsg : (!sg) = true
              · rw [if_pos hsg] at hr
                rw [Prod.mk.injEq] at hr
                obtain ⟨h1, h2⟩ := hr
                subst h1
                simp at hres
              · rw [if_neg hsg] at hr
                rw [Prod.mk.injEq] at hr
                obtain ⟨h1, h2⟩ := hr
                subst h1
                subst h2
                simp only [LeaseResp.granted.injEq] at hres
                subst hres
                refine ⟨w, s₁, rfl, hdq, rfl, rfl, ?_⟩
                have hls : s₁.leases = s.leases := (dequeue_job_some hdq).2.1
                simp [set_job, push_event, hls]
  exact key _ _ rfl h

theorem worker_lease_granted_queues (s : St) (wid : String) (wants act : Int) (now : Nat)
    (sg : Bool) (info : LeaseInfo)
    (h : (worker_lease s wid wants act now sg).1 = .granted info) :
    s.qp0 ++ s.qp1 =
      info.jobId :: ((worker_lease s wid wants act now sg).2.qp0 ++
        (worker_lease s wid wants act now sg).2.qp1) := by
  obtain ⟨w, s₁, _, hdq, hq0, hq1, _⟩ := worker_lease_granted_spec s wid wants act now sg info h
  rw [hq0, hq1]
  exact (dequeue_job_some hdq).1

theorem dequeue_job_none {s s' : St} (h : dequeue_job s = (none, s')) : s' = s := by
  unfold dequeue_job at h
  rcases hq0 : s.qp0 with _ | ⟨a, t⟩ <;> rw [hq0] at h
  · rcases hq1 : s.qp1 with _ | ⟨b, u⟩ <;> rw [hq1] at h
    · simp only [Prod.mk.injEq] at h
      exact h.2.symm
    · simp at h
  · simp at h

theorem worker_lease_leases_shape (s : St) (wid : String) (wants act : Int) (now : Nat)
    (sg : Bool) :
    (worker_lease s wid wants act now sg).2.leases = s.leases ∨
    ∃ jid v, (worker_lease s wid wants act now sg).2.leases = alistSet s.leases jid v := by
  have key : ∀ (res : LeaseResp) (s₂ : St), worker_lease s wid wants act now sg = (res, s₂) →
      s₂.leases = s.leases ∨ ∃ jid v, s₂.leases = alistSet s.leases jid v := by
    intro res s₂ hr
    rw [worker_lease] at hr
    cases hfind : alistFind s.workers wid
    case none =>
      rw [hfind] at hr
      dsimp only at hr
      rw [Prod.mk.injEq] at hr
      exact .inl (by rw [← hr.2])
    case some w =>
      rw [hfind] at hr
      dsimp only at hr
      split at hr
      case isTrue =>
        rw [Prod.mk.injEq] at hr
        exact .inl (by rw [← hr.2])
      case isFalse =>
        rcases hdq : dequeue_job
            { s with workers := alistSet s.workers wid { w with lastSeenTs := now, active := act } }
          with ⟨o, s₁⟩
        have hls : s₁.leases = s.leases := by
          cases o with
          | none => rw [dequeue_job_none hdq]
          | some jid => exact (dequeue_job_some hdq).2.1
        rw [hdq] at hr
        cases o with
        | none =>
          dsimp only at hr
          rw [Prod.mk.injEq] at hr
          exact .inl (by rw [← hr.2, hls])
        | some jid =>
          dsimp only at hr
          cases hjob : alistFind s₁.jobs jid with
          | none =>
            rw [hjob] at hr
            dsimp only at hr
            rw [Prod.mk.injEq] at hr
            exact .inl (by rw [← hr.2, hls])
          | some job =>
            rw [hjob] at hr
            dsimp only at hr
            cases hip : job.inputPath with
            | none =>
              rw [hip] at hr
              dsimp only at hr
              rw [Prod.mk.injEq] at hr
              exact .inl (by rw [← hr.2]; simp [set_job, push_event, hls])
            | some ipath =>
              rw [hip] at hr
              dsimp only at hr
              by_cases hsg : (!sg) = true
              · rw [if_pos hsg] at hr
                rw [Prod.mk.injEq] at hr
                exact .inl (by rw [← hr.2]; simp [set_job, push_event, hls])
              · rw [if_neg hsg] at hr
                rw [Prod.mk.injEq] at hr
                refine .inr ⟨jid,
                  ⟨some wid, now + JOB_LEASE_TIMEOUT_SEC, (alistFind s.leases jid).elim 0 Lease.retries⟩, ?_⟩
                rw [← hr.2]
                simp only [set_job_leases, push_event_leases]
                rw [hls]
  exact key _ _ rfl

/-! ### Sweeper helper lemmas -/

theorem sweepOne_find_ne (s : St) (j' jid : String) (h : jid ≠ j') :
    alistFind (sweepOne s j').jobs jid = alistFind s.jobs jid ∧
    alistFind (sweepOne s j').leases jid = alistFind s.leases jid := by
  unfold sweepOne
  cases hl : alistFind s.leases j' with
  | none => exact ⟨rfl, rfl⟩
  | some lease =>
    dsimp only
    have herase : alistFind (alistErase s.leases j') jid = alistFind s.leases jid :=
      alistFind_erase_ne s.leases j' jid h
    cases hwid : lease.workerId with
    | none =>
      dsimp only
      split
      all_goals constructor
      all_goals simp [set_job, enqueue_job, push_event, decWorkerActive_jobs,
        decWorkerActive_leases, alistFind_set_ne _ _ _ _ h, herase]
    | some lwid =>
      dsimp only
      split
      all_goals split
      all_goals constructor
      all_goals simp [set_job, enqueue_job, push_event, decWorkerActive_jobs,
        decWorkerActive_leases, alistFind_set_ne _ _ _ _ h, herase]

theorem foldl_sweepOne_find (ids : List String) (jid : String) (h : ∀ j' ∈ ids, jid ≠ j') :
    ∀ s : St, alistFind (ids.foldl sweepOne s).jobs jid = alistFind s.jobs jid ∧
      alistFind (ids.foldl sweepOne s).leases jid = alistFind s.leases jid := by
  induction ids with
  | nil => exact fun s => ⟨rfl, rfl⟩
  | cons a t ih =>
    intro s
    have ha := sweepOne_find_ne s a jid (h a (List.mem_cons_self a t))
    have ht := ih (fun j' hj => h j' (List.mem_cons_of_mem a hj)) (sweepOne s a)
    rw [List.foldl_cons]
    exact ⟨ht.1.trans ha.1, ht.2.trans ha.2⟩

theorem not_mem_expiredIds {s : St} {now : Nat} {jid : String}
    (h : ∀ l, (jid, l) ∈ s.leases → l.deadlineTs = 0) :
    ∀ j' ∈ expiredIds s now, jid ≠ j' := by
  intro j' hj' heq
  subst heq
  unfold expiredIds at hj'
  rw [List.mem_map] at hj'
  obtain ⟨p, hp, hfst⟩ := hj'
  rw [List.mem_filter] at hp
  have hd := h p.2 (by
    have : p = (jid, p.2) := by
      rw [← hfst]
    rw [← this]
    exact hp.1)
  simp only [bne_iff_ne, ne_eq, Bool.and_eq_true, decide_eq_true_eq] at hp
  exact hp.2.1 hd

/-- A job id whose lease entries are all sentinels (deadline 0) — in
particular one with no entry at all — is untouched by a sweeper tick: both
its job document and its lease entry survive unchanged. -/
theorem lease_sweeper_tick_untouched {s : St} {now : Nat} {jid : String}
    (h : ∀ l, (jid, l) ∈ s.leases → l.deadlineTs = 0) :
    alistFind (lease_sweeper_tick s now).jobs jid = alistFind s.jobs jid ∧
    alistFind (lease_sweeper_tick s now).leases jid = alistFind s.leases jid :=
  foldl_sweepOne_find (expiredIds s now) jid (not_mem_expiredIds h) s

/-- C4 counterexample: a lease request from an unregistered worker id is
answered with a hard HTTP 404 (`raise HTTPException(404, "unknown
worker_id")`), not with an empty lease and a wait hint: the claim that a
lease call never produces a hard 4xx — "including when the worker_id is
unknown" — is false. -/
theorem c4_counterexample :
    (worker_lease St.empty "w1" 1 0 0 true).1 = .httpError 404 "unknown worker_id" := by
  decide

/-- C4 amended: once the worker id is known, a lease call never raises an
HTTP error: every no-work outcome (no free slot, empty queue, missing job
document, missing input path, signing failure) is reported as an empty
lease with a non-zero wait_sec of 1 or 2.  The one hard 4xx is the unknown
worker id, which yields a 404. -/
theorem c4_amended (s : St) (wid : String) (wants act : Int) (now : Nat) (sg : Bool)
    (hw : (alistFind s.workers wid).isSome = true) :
    (∀ c d, (worker_lease s wid wants act now sg).1 ≠ .httpError c d) ∧
    (∀ ws, (worker_lease s wid wants act now sg).1 = .noLease ws → ws = 1 ∨ ws = 2) := by
  rcases worker_lease_fst_shape s wid wants act now sg with ⟨hn, _⟩ | h2 | h1 | ⟨info, hg⟩
  · rw [hn] at hw
    simp at hw
  · refine ⟨fun c d hc => ?_, fun ws hws => ?_⟩
    · rw [h2] at hc
      cases hc
    · rw [h2] at hws
      cases hws
      exact .inr rfl
  · refine ⟨fun c d hc => ?_, fun ws hws => ?_⟩
    · rw [h1] at hc
      cases hc
    · rw [h1] at hws
      cases hws
      exact .inl rfl
  · refine ⟨fun c d hc => ?_, fun ws hws => ?_⟩
    · rw [hg] at hc
      cases hc
    · rw [hg] at hws
      cases hws

/-- C4 witness: a registered worker polling an empty queue gets an empty
lease with wait_sec 2 and no HTTP error. -/
theorem c4_witness :
    (∀ c d, (worker_lease (worker_register St.empty "w1" 1 0) "w1" 1 0 5 true).1 ≠ .httpError c d) ∧
    (∀ ws, (worker_lease (worker_register St.empty "w1" 1 0) "w1" 1 0 5 true).1 = .noLease ws →
      ws = 1 ∨ ws = 2) :=
  c4_amended (worker_register St.empty "w1" 1 0) "w1" 1 0 5 true (by decide)

/-- C1 counterexample: calling `worker_error` for a job that is still
queued re-enqueues the id, so the queue holds `["j1", "j1"]`; two
subsequent lease calls by different workers then both return job `"j1"`.
The guarantee that two lease calls by different workers never return the
same job id therefore fails (the id was popped, but another copy of it was
still queued). -/
theorem c1_counterexample :
    (worker_lease
      (worker_error
        (create_job_common (worker_register (worker_register St.empty "w1" 1 0) "w2" 1 0)
          "j1" "cat.jpg" "9.9.9.9" [] true true).2
        "w1" "j1" "oops").2
      "w1" 1 0 100 true).1 = .granted ⟨"j1", "cat.jpg", 280⟩ ∧
    (worker_lease
      (worker_lease
        (worker_error
          (create_job_common (worker_register (worker_register St.empty "w1" 1 0) "w2" 1 0)
            "j1" "cat.jpg" "9.9.9.9" [] true true).2
          "w1" "j1" "oops").2
        "w1" 1 0 100 true).2
      "w2" 1 0 100 true).1 = .granted ⟨"j1", "cat.jpg", 280⟩ := by
  constructor
  · decide
  · decide

/-- C1 amended: the lease table is a map, so each job id owns at most one
lease record, and a lease call preserves that; every lease call returns a
hard error, no lease, or exactly one lease; and when the granted job id
occurs at most once in the queues (which holds unless `worker_error` was
invoked for an already-queued job, duplicating its id), a second lease
call — by any worker — cannot return the same job id until it is
re-enqueued. -/
theorem c1_amended :
    (∀ (s : St) (wid : String) (wants act : Int) (now : Nat) (sg : Bool),
       keysNodup s.leases →
       keysNodup (worker_lease s wid wants act now sg).2.leases ∧
       ∀ k, ((worker_lease s wid wants act now sg).2.leases.filter (fun p => p.1 == k)).length ≤ 1)
    ∧ (∀ (s : St) (wid : String) (wants act : Int) (now : Nat) (sg : Bool),
       (∃ c d, (worker_lease s wid wants act now sg).1 = .httpError c d) ∨
       (∃ ws, (worker_lease s wid wants act now sg).1 = .noLease ws) ∨
       (∃ info, (worker_lease s wid wants act now sg).1 = .granted info))
    ∧ (∀ (s : St) (w₁ w₂ : String) (wants₁ act₁ wants₂ act₂ : Int) (now₁ now₂ : Nat)
        (sg₁ sg₂ : Bool) (info₁ info₂ : LeaseInfo),
       (worker_lease s w₁ wants₁ act₁ now₁ sg₁).1 = .granted info₁ →
       (s.qp0 ++ s.qp1).count info₁.jobId ≤ 1 →
       (worker_lease (worker_lease s w₁ wants₁ act₁ now₁ sg₁).2 w₂ wants₂ act₂ now₂ sg₂).1
         = .granted info₂ →
       info₂.jobId ≠ info₁.jobId) := by
  refine ⟨?_, ?_, ?_⟩
  · intro s wid wants act now sg hnd
    have hpost : keysNodup (worker_lease s wid wants act now sg).2.leases := by
      rcases worker_lease_leases_shape s wid wants act now sg with heq | ⟨jid, v, heq⟩
      · rw [heq]
        exact hnd
      · rw [heq]
        exact keysNodup_set jid v hnd
    exact ⟨hpost, fun k => keysNodup_count_le_one hpost k⟩
  · intro s wid wants act now sg
    rcases worker_lease_fst_shape s wid wants act now sg with ⟨_, hn⟩ | h2 | h1 | ⟨info, hg⟩
    · exact .inl ⟨404, "unknown worker_id", hn⟩
    · exact .inr (.inl ⟨2, h2⟩)
    · exact .inr (.inl ⟨1, h1⟩)
    · exact .inr (.inr ⟨info, hg⟩)
  · intro s w₁ w₂ wants₁ act₁ wants₂ act₂ now₁ now₂ sg₁ sg₂ info₁ info₂ hg1 hcount hg2 heq
    have hq1 := worker_lease_granted_queues s w₁ wants₁ act₁ now₁ sg₁ info₁ hg1
    have hq2 := worker_lease_granted_queues _ w₂ wants₂ act₂ now₂ sg₂ info₂ hg2
    rw [hq1] at hcount
    rw [List.count_cons_self] at hcount
    have hzero : ((worker_lease s w₁ wants₁ act₁ now₁ sg₁).2.qp0 ++
        (worker_lease s w₁ wants₁ act₁ now₁ sg₁).2.qp1).count info₁.jobId = 0 := by
      omega
    have hnotmem := List.count_eq_zero.mp hzero
    apply hnotmem
    rw [hq2, heq]
    exact List.mem_cons_self _ _

/-- C1 witness: two workers, two distinct queued jobs; the first lease call
returns `j1`, the second returns `j2 ≠ j1`, and the lease table keeps at
most one record per job id. -/
theorem c1_witness :
    (LeaseInfo.mk "j2" "upload.jpg" 180).jobId ≠ (LeaseInfo.mk "j1" "upload.jpg" 180).jobId ∧
    keysNodup (worker_lease
      { qp1 := ["j1", "j2"], workers := [("w1", ⟨1, 0, 0⟩), ("w2", ⟨1, 0, 0⟩)],
        jobs := [("j1", { status := "queued", inputPath := some "p1" }),
                 ("j2", { status := "queued", inputPath := some "p2" })] }
      "w1" 1 0 0 true).2.leases :=
  ⟨c1_amended.2.2
      { qp1 := ["j1", "j2"], workers := [("w1", ⟨1, 0, 0⟩), ("w2", ⟨1, 0, 0⟩)],
        jobs := [("j1", { status := "queued", inputPath := some "p1" }),
                 ("j2", { status := "queued", inputPath := some "p2" })] }
      "w1" "w2" 1 0 1 0 0 0 true true ⟨"j1", "upload.jpg", 180⟩ ⟨"j2", "upload.jpg", 180⟩
      (by decide) (by decide) (by decide),
    (c1_amended.1
      { qp1 := ["j1", "j2"], workers := [("w1", ⟨1, 0, 0⟩), ("w2", ⟨1, 0, 0⟩)],
        jobs := [("j1", { status := "queued", inputPath := some "p1" }),
                 ("j2", { status := "queued", inputPath := some "p2" })] }
      "w1" 1 0 0 true (by unfold keysNodup; decide)).1⟩

/-- C2 counterexample: a completed job is requeued by `worker_error`.  The
trace registers a worker, submits a job, leases it, completes it (status
`completed`, a terminal state), and then calls `worker_error` for the same
job id: since the endpoint never checks the job's status and the lease is
gone (retries default 0 < 3), it sets the job back to `queued`.  So a
terminal state is not absorbing under `worker_error`. -/
theorem c2_counterexample :
    ((alistFind
      (worker_result
        (worker_lease
          (create_job_common (worker_register St.empty "w1" 1 0) "j1" "cat.jpg" "9.9.9.9" [] true true).2
          "w1" 1 0 100 true).2
        "w1" "j1" true true).2.jobs "j1").map Job.status = some "completed") ∧
    ((alistFind
      (worker_error
        (worker_result
          (worker_lease
            (create_job_common (worker_register St.empty "w1" 1 0) "j1" "cat.jpg" "9.9.9.9" [] true true).2
            "w1" 1 0 100 true).2
          "w1" "j1" true true).2
        "w1" "j1" "boom").2.jobs "j1").map Job.status = some "queued") := by
  constructor
  · decide
  · decide

/-- C2 amended: terminal states are absorbing under the lease sweeper and
under admin cancel/retry: the sweeper only acts on leases with a non-zero
past deadline, so a terminal job all of whose lease entries are requeue
sentinels (deadline 0) — result, error and cancel delete the live lease when
the job leaves `processing` — keeps its record unchanged; cancel moves a
job to `canceled` (terminal, not queued or processing); and retry leaves
the original record untouched, creating the clone under a fresh id.
`worker_error`, however, does requeue a terminal job (see the
counterexample). -/
theorem c2_amended :
    (∀ (s : St) (now : Nat) (jid : String) (j : Job),
       alistFind s.jobs jid = some j →
       j.status ∈ (["completed", "failed", "canceled", "timeout"] : List String) →
       (∀ l, (jid, l) ∈ s.leases → l.deadlineTs = 0) →
       alistFind (lease_sweeper_tick s now).jobs jid = some j)
    ∧ (∀ (s : St) (jid : String) (j : Job),
       alistFind s.jobs jid = some j →
       alistFind (job_cancel s jid).2.jobs jid = some { j with status := "canceled" })
    ∧ (∀ (s : St) (jid newId : String) (ips : List String),
       newId ≠ jid →
       alistFind (job_retry s jid newId ips).2.jobs jid = alistFind s.jobs jid) := by
  refine ⟨?_, ?_, ?_⟩
  · intro s now jid j hj _ hsent
    rw [(lease_sweeper_tick_untouched hsent).1]
    exact hj
  · intro s jid j hj
    unfold job_cancel
    rw [hj]
    dsimp only
    cases hl : alistFind s.leases jid with
    | none =>
      simp only [set_job, push_event, remove_from_queue]
      rw [alistFind_set_self]
      simp [hj]
    | some l =>
      dsimp only
      cases hwid : l.workerId with
      | none =>
        simp only [set_job, push_event, remove_from_queue]
        rw [alistFind_set_self]
        simp [hj]
      | some lwid =>
        dsimp only
        split
        all_goals simp only [set_job, push_event, remove_from_queue, decWorkerActive_jobs]
        all_goals rw [alistFind_set_self]
        all_goals simp [hj]
  · intro s jid newId ips hne
    unfold job_retry
    cases hj : alistFind s.jobs jid with
    | none => exact hj
    | some j =>
      dsimp only
      cases hip : j.inputPath with
      | none => exact hj
      | some ip =>
        dsimp only
        simp only [push_event_jobs, enqueue_job_jobs]
        rw [alistFind_set_ne _ _ _ _ (Ne.symm hne)]
        exact hj

/-- C2 witness: a completed job with a sentinel lease survives a sweeper
tick even while another expired lease is reaped; cancel marks a job
canceled; retry leaves the original record alone. -/
theorem c2_witness :
    alistFind (lease_sweeper_tick
      { leases := [("a", ⟨none, 0, 1⟩), ("b", ⟨some "w1", 10, 0⟩)],
        jobs := [("a", { status := "completed" }), ("b", { status := "processing" })] }
      1000).jobs "a" = some { status := "completed" } ∧
    alistFind (job_cancel { jobs := [("a", { status := "completed" })] } "a").2.jobs "a"
      = some { status := "canceled" } ∧
    alistFind (job_retry { jobs := [("a", { status := "completed", inputPath := some "p" })] }
      "a" "b" []).2.jobs "a" = alistFind
        ({ jobs := [("a", { status := "completed", inputPath := some "p" })] } : St).jobs "a" :=
  ⟨c2_amended.1
      { leases := [("a", ⟨none, 0, 1⟩), ("b", ⟨some "w1", 10, 0⟩)],
        jobs := [("a", { status := "completed" }), ("b", { status := "processing" })] }
      1000 "a" { status := "completed" } (by decide) (by decide)
      (by
        intro l hl
        rcases List.mem_cons.mp hl with h | h
        · injection h with h1 h2
          rw [h2]
        · rcases List.mem_cons.mp h with h' | h'
          · injection h' with h1 h2
            exact absurd h1 (by decide)
          · simp at h'),
    c2_amended.2.1 { jobs := [("a", { status := "completed" })] } "a"
      { status := "completed" } (by decide),
    c2_amended.2.2 { jobs := [("a", { status := "completed", inputPath := some "p" })] }
      "a" "b" [] (by decide)⟩

/-- C10: sentinel leases survive the sweeper and carry `retries` to the next
grant.  (a) A job id all of whose lease entries have deadline 0 — the
sentinel written on requeue — is untouched by a sweeper tick: the sweeper's
expiry test requires a non-zero past deadline.  (b) A granted lease stores
exactly the retries value found in the previous lease entry for that job
(0 when none).  (c) A `worker_error` requeue replaces the lease by a
sentinel with `retries + 1`, so the counter never decreases across requeue
cycles. -/
theorem c10_sentinel_retries :
    (∀ (s : St) (now : Nat) (jid : String),
       (∀ l, (jid, l) ∈ s.leases → l.deadlineTs = 0) →
       alistFind (lease_sweeper_tick s now).leases jid = alistFind s.leases jid)
    ∧ (∀ (s : St) (wid : String) (wants act : Int) (now : Nat) (sg : Bool) (info : LeaseInfo),
       (worker_lease s wid wants act now sg).1 = .granted info →
       alistFind (worker_lease s wid wants act now sg).2.leases info.jobId =
         some ⟨some wid, now + JOB_LEASE_TIMEOUT_SEC,
               (alistFind s.leases info.jobId).elim 0 Lease.retries⟩)
    ∧ (∀ (s : St) (wid jid txt : String) (l : Lease),
       (alistFind s.workers wid).isSome = true →
       alistFind s.leases jid = some l → l.retries < 3 →
       alistFind (worker_error s wid jid txt).2.leases jid = some ⟨none, 0, l.retries + 1⟩) := by
  refine ⟨?_, ?_, ?_⟩
  · intro s now jid hsent
    exact (lease_sweeper_tick_untouched hsent).2
  · intro s wid wants act now sg info hg
    obtain ⟨w, s₁, _, _, _, _, hl⟩ := worker_lease_granted_spec s wid wants act now sg info hg
    rw [hl]
    exact alistFind_set_self _ _ _
  · intro s wid jid txt l hw hl hr3
    unfold worker_error
    cases hfw : alistFind s.workers wid with
    | none =>
      rw [hfw] at hw
      simp at hw
    | some w =>
      rw [hl]
      dsimp only [Option.elim]
      rw [if_pos hr3]
      simp only [push_event_leases, enqueue_job_leases, set_job_leases]
      exact alistFind_set_self _ _ _

/-- C10 witness: a sweeper tick at time 1000 reaps an expired live lease
but leaves the sentinel for job `a` — and its retries counter — in place;
a grant for a job with a sentinel of retries 2 records retries 2; an error
requeue bumps retries 0 to 1. -/
theorem c10_witness :
    alistFind (lease_sweeper_tick
      { leases := [("a", ⟨none, 0, 2⟩), ("b", ⟨some "w1", 10, 0⟩)] } 1000).leases "a"
      = alistFind ({ leases := [("a", ⟨none, 0, 2⟩), ("b", ⟨some "w1", 10, 0⟩)] } : St).leases "a" ∧
    alistFind (worker_lease
      { qp1 := ["a"], leases := [("a", ⟨none, 0, 2⟩)], workers := [("w1", ⟨1, 0, 0⟩)],
        jobs := [("a", { status := "queued", inputPath := some "p" })] }
      "w1" 1 0 100 true).2.leases "a" = some ⟨some "w1", 280, 2⟩ ∧
    alistFind (worker_error
      { leases := [("a", ⟨some "w1", 280, 0⟩)], workers := [("w1", ⟨1, 1, 0⟩)],
        jobs := [("a", { status := "processing" })] }
      "w1" "a" "boom").2.leases "a" = some ⟨none, 0, 1⟩ :=
  ⟨c10_sentinel_retries.1
      { leases := [("a", ⟨none, 0, 2⟩), ("b", ⟨some "w1", 10, 0⟩)] } 1000 "a"
      (by
        intro l hl
        rcases List.mem_cons.mp hl with h | h
        · injection h with h1 h2
          rw [h2]
        · rcases List.mem_cons.mp h with h' | h'
          · injection h' with h1 h2
            exact absurd h1 (by decide)
          · simp at h'),
    by
      have := c10_sentinel_retries.2.1
        { qp1 := ["a"], leases := [("a", ⟨none, 0, 2⟩)], workers := [("w1", ⟨1, 0, 0⟩)],
          jobs := [("a", { status := "queued", inputPath := some "p" })] }
        "w1" 1 0 100 true ⟨"a", "upload.jpg", 280⟩ (by decide)
      simpa using this,
    c10_sentinel_retries.2.2
      { leases := [("a", ⟨some "w1", 280, 0⟩)], workers := [("w1", ⟨1, 1, 0⟩)],
        jobs := [("a", { status := "processing" })] }
      "w1" "a" "boom" ⟨some "w1", 280, 0⟩ (by decide) (by decide) (by decide)⟩

/-- What the claim says `worker_result` accepts (stated from the spec's
words, for comparison): a lease for the job with matching worker id, or —
as a fallback — a job in status `processing` whose `worker_id` matches. -/
def spec_result_accepts (s : St) (wid jid : String) : Bool :=
  ((alistFind s.leases jid).elim false (fun l => l.workerId == some wid)) ||
  ((alistFind s.jobs jid).elim false (fun j => j.status == "processing" && j.workerId == some wid))

/-- C3 counterexample: a job in status `processing` with matching
`worker_id` but no lease entry — exactly the claim's fallback case — is
rejected with 400 "invalid lease or worker_id": the source checks only the
lease table (`if not lease or not w or lease.get("worker_id") != worker_id`)
and has no processing-status fallback. -/
theorem c3_counterexample :
    spec_result_accepts
      { workers := [("w1", ⟨1, 1, 0⟩)],
        jobs := [("j1", { status := "processing", workerId := some "w1" })] }
      "w1" "j1" = true ∧
    (worker_result
      { workers := [("w1", ⟨1, 1, 0⟩)],
        jobs := [("j1", { status := "processing", workerId := some "w1" })] }
      "w1" "j1" true true).1 = .httpError 400 "invalid lease or worker_id" := by
  constructor
  · decide
  · decide

/-- C3 amended: `worker_result` rejects with 400 "invalid lease or
worker_id" exactly when there is no lease for the job whose `worker_id`
matches the caller, or the worker id is unknown — there is no fallback on
the job's `processing` status — and a rejected call leaves the entire
state (in particular the job record) unchanged.  A duplicate result after
completion is therefore rejected without mutation, the lease having been
deleted at completion. -/
theorem c3_amended (s : St) (wid jid : String) (readOk uploadOk : Bool) :
    ((worker_result s wid jid readOk uploadOk).1 = .httpError 400 "invalid lease or worker_id" ↔
      ¬ ((∃ l, alistFind s.leases jid = some l ∧ l.workerId = some wid) ∧
         (alistFind s.workers wid).isSome = true))
    ∧ ((worker_result s wid jid readOk uploadOk).1 = .httpError 400 "invalid lease or worker_id" →
       (worker_result s wid jid readOk uploadOk).2 = s) := by
  unfold worker_result
  cases hl : alistFind s.leases jid with
  | none =>
    refine ⟨⟨fun _ hacc => ?_, fun _ => rfl⟩, fun _ => rfl⟩
    obtain ⟨⟨l, hl', _⟩, _⟩ := hacc
    cases hl'
  | some lease =>
    cases hw : alistFind s.workers wid with
    | none =>
      refine ⟨⟨fun _ hacc => ?_, fun _ => rfl⟩, fun _ => rfl⟩
      simp at hacc
    | some w =>
      dsimp only
      by_cases hm : lease.workerId = some wid
      · rw [if_pos hm]
        constructor
        · constructor
          · intro habs
            exfalso
            revert habs
            split
            · intro habs
              have h2 : ResultResp.httpError 400 "read upload failed"
                  = ResultResp.httpError 400 "invalid lease or worker_id" := habs
              exact absurd h2 (by decide)
            · split
              · intro habs
                cases habs
              · intro habs
                cases habs
          · intro hacc
            exact absurd ⟨⟨lease, rfl, hm⟩, rfl⟩ hacc
        · intro habs
          exfalso
          revert habs
          split
          · intro habs
            have h2 : ResultResp.httpError 400 "read upload failed"
                = ResultResp.httpError 400 "invalid lease or worker_id" := habs
            exact absurd h2 (by decide)
          · split
            · intro habs
              cases habs
            · intro habs
              cases habs
      · rw [if_neg hm]
        refine ⟨⟨fun _ hacc => ?_, fun _ => rfl⟩, fun _ => rfl⟩
        obtain ⟨⟨l, hl', hlw⟩, _⟩ := hacc
        injection hl' with h
        subst h
        exact hm hlw

/-- C3 witness: a duplicate result for an already-completed job (lease
deleted at completion) is rejected with the 400 error, derived from the
amended characterization. -/
theorem c3_witness :
    (worker_result { workers := [("w1", ⟨1, 0, 0⟩)], jobs := [("j1", { status := "completed" })] }
      "w1" "j1" true true).1 = .httpError 400 "invalid lease or worker_id" :=
  (c3_amended { workers := [("w1", ⟨1, 0, 0⟩)], jobs := [("j1", { status := "completed" })] }
    "w1" "j1" true true).1.mpr
    (by
      rintro ⟨⟨l, hl, -⟩, -⟩
      cases hl)

/-- C5 counterexample: the terminal event written by a successful result
upload has type `"done"` (`push_event(job_id, "done", "completed", 100,
...)`), not type `"completed"`; `"completed"` is only the message text. -/
theorem c5_counterexample :
    ((worker_result
      { leases := [("j1", ⟨some "w1", 280, 0⟩)], workers := [("w1", ⟨1, 1, 0⟩)],
        jobs := [("j1", { status := "processing" })] }
      "w1" "j1" true true).2.events.map (fun p => p.2.etype)) = ["done"] ∧
    ("done" : String) ≠ "completed" := by
  constructor
  · decide
  · decide

/-- C5 amended: on every successful result upload the terminal event
appended to the job's log has type `"done"`, message `"completed"` and
progress 100 (and the call reports success). -/
theorem c5_amended (s : St) (wid jid : String) (l : Lease)
    (hl : alistFind s.leases jid = some l) (hm : l.workerId = some wid)
    (hw : (alistFind s.workers wid).isSome = true) :
    (worker_result s wid jid true true).2.events =
      s.events ++ [(jid, ⟨"done", "completed", some 100, none⟩)] ∧
    (worker_result s wid jid true true).1 = .okTrue := by
  unfold worker_result
  rw [hl]
  cases hfw : alistFind s.workers wid with
  | none =>
    rw [hfw] at hw
    simp at hw
  | some w =>
    dsimp only
    rw [if_pos hm]
    constructor
    · simp [set_job, push_event, decWorkerActive_events]
    · rfl

/-- C5 witness: concrete successful upload appends the `"done"`/100 event
and returns ok. -/
theorem c5_witness :
    (worker_result
      { leases := [("j1", ⟨some "w1", 280, 0⟩)], workers := [("w1", ⟨1, 1, 0⟩)],
        jobs := [("j1", { status := "processing" })] }
      "w1" "j1" true true).2.events =
      [] ++ [("j1", ⟨"done", "completed", some 100, none⟩)] ∧
    (worker_result
      { leases := [("j1", ⟨some "w1", 280, 0⟩)], workers := [("w1", ⟨1, 1, 0⟩)],
        jobs := [("j1", { status := "processing" })] }
      "w1" "j1" true true).1 = .okTrue :=
  c5_amended
    { leases := [("j1", ⟨some "w1", 280, 0⟩)], workers := [("w1", ⟨1, 1, 0⟩)],
      jobs := [("j1", { status := "processing" })] }
    "w1" "j1" ⟨some "w1", 280, 0⟩ (by decide) (by decide) (by decide)

/-- C6 counterexample: on requeue `worker_error` writes
`{"status": "queued", "error": None}` — the job's error field becomes null
(`none`), not the empty string `""` the claim states. -/
theorem c6_counterexample :
    ((alistFind (worker_error
      { leases := [("j1", ⟨some "w1", 280, 0⟩)], workers := [("w1", ⟨1, 1, 0⟩)],
        jobs := [("j1", { status := "processing", error := some "old" })] }
      "w1" "j1" "boom").2.jobs "j1").map Job.error) = some none ∧
    (none : Option String) ≠ some "" := by
  constructor
  · decide
  · decide

/-- C6 amended: for a `worker_error` call from a known worker with current
lease retries `r`: if `r < 3` the job is set to `{status: queued, error:
null}`, a sentinel lease with `retries = r + 1` is recorded, the job id is
re-pushed onto the normal queue, and an info event with message
`"requeued after error: <text>"` at progress 5 is emitted; if `r ≥ 3` the
job is set to `{status: failed, error: <text>}` and an error event is
emitted. -/
theorem c6_amended (s : St) (wid jid errText : String)
    (hw : (alistFind s.workers wid).isSome = true) :
    ((alistFind s.leases jid).elim 0 Lease.retries < 3 →
      alistFind (worker_error s wid jid errText).2.jobs jid =
        some { (alistFind s.jobs jid).getD {} with status := "queued", error := none } ∧
      alistFind (worker_error s wid jid errText).2.leases jid =
        some ⟨none, 0, (alistFind s.leases jid).elim 0 Lease.retries + 1⟩ ∧
      (worker_error s wid jid errText).2.qp0 = s.qp0 ∧
      (worker_error s wid jid errText).2.qp1 = s.qp1 ++ [jid] ∧
      (worker_error s wid jid errText).2.events =
        s.events ++ [(jid, ⟨"info", "requeued after error: " ++ errText, some 5, none⟩)]) ∧
    (3 ≤ (alistFind s.leases jid).elim 0 Lease.retries →
      alistFind (worker_error s wid jid errText).2.jobs jid =
        some { (alistFind s.jobs jid).getD {} with status := "failed", error := some errText } ∧
      (worker_error s wid jid errText).2.events =
        s.events ++ [(jid, ⟨"error", errText, none, none⟩)]) := by
  unfold worker_error
  cases hfw : alistFind s.workers wid with
  | none =>
    rw [hfw] at hw
    simp at hw
  | some w =>
    dsimp only
    constructor
    · intro hr
      rw [if_pos hr]
      refine ⟨?_, ?_, ?_, ?_, ?_⟩
      · simp only [push_event, enqueue_job, set_job, decWorkerActive_jobs, decWorkerActive_leases]
        simp [alistFind_set_self, decWorkerActive_jobs]
      · simp only [push_event, enqueue_job, set_job, decWorkerActive_jobs, decWorkerActive_leases]
        simp [alistFind_set_self]
      · simp [push_event, enqueue_job, set_job, decWorkerActive_qp0]
      · simp [push_event, enqueue_job, set_job, decWorkerActive_qp1]
      · simp [push_event, enqueue_job, set_job, decWorkerActive_events]
    · intro hr
      rw [if_neg (by omega)]
      refine ⟨?_, ?_⟩
      · simp [push_event, set_job, decWorkerActive_jobs, decWorkerActive_leases, alistFind_set_self]
      · simp [push_event, set_job, decWorkerActive_events]

/-- C6 witness: concrete requeue (retries 0 on the live lease) and concrete
terminal failure (retries 3 on the lease). -/
theorem c6_witness :
    alistFind (worker_error
      { leases := [("j1", ⟨some "w1", 280, 0⟩)], workers := [("w1", ⟨1, 1, 0⟩)],
        jobs := [("j1", { status := "processing" })] }
      "w1" "j1" "boom").2.leases "j1" = some ⟨none, 0, 1⟩ ∧
    (worker_error
      { leases := [("j1", ⟨some "w1", 280, 3⟩)], workers := [("w1", ⟨1, 1, 0⟩)],
        jobs := [("j1", { status := "processing" })] }
      "w1" "j1" "boom").2.events =
      [] ++ [("j1", ⟨"error", "boom", none, none⟩)] :=
  ⟨((c6_amended
      { leases := [("j1", ⟨some "w1", 280, 0⟩)], workers := [("w1", ⟨1, 1, 0⟩)],
        jobs := [("j1", { status := "processing" })] }
      "w1" "j1" "boom" (by decide)).1 (by decide)).2.1,
    ((c6_amended
      { leases := [("j1", ⟨some "w1", 280, 3⟩)], workers := [("w1", ⟨1, 1, 0⟩)],
        jobs := [("j1", { status := "processing" })] }
      "w1" "j1" "boom" (by decide)).2 (by decide)).2⟩

/-! ### Worker `active` bounds -/

/-- The invariant claimed for the worker registry: every worker's active
count lies between 0 and its capacity. -/
def activeBounded (s : St) : Prop :=
  ∀ p ∈ s.workers, 0 ≤ p.2.active ∧ p.2.active ≤ p.2.capacity

theorem workersBounded_set {l : List (String × Worker)} {k : String} {v : Worker}
    (h : ∀ p ∈ l, 0 ≤ p.2.active ∧ p.2.active ≤ p.2.capacity)
    (hv : 0 ≤ v.active ∧ v.active ≤ v.capacity) :
    ∀ p ∈ alistSet l k v, 0 ≤ p.2.active ∧ p.2.active ≤ p.2.capacity := by
  intro p hp
  rw [alistSet, List.mem_append] at hp
  rcases hp with hp | hp
  · exact h p ((alistErase_sublist l k).subset hp)
  · rw [List.mem_singleton] at hp
    subst hp
    exact hv

theorem decWorkerActive_bounded {s : St} (wid : String) (h : activeBounded s) :
    activeBounded (decWorkerActive s wid) := by
  unfold decWorkerActive
  cases hf : alistFind s.workers wid with
  | none => exact h
  | some w =>
    dsimp only
    obtain ⟨h0, hc⟩ := h (wid, w) (alistFind_mem hf)
    simp only at h0 hc
    intro p hp
    refine workersBounded_set h ⟨le_max_left 0 _, ?_⟩ p hp
    show (0 : Int) ⊔ (w.active - 1) ≤ w.capacity
    exact max_le (le_trans h0 hc) (by omega)

theorem sweepOne_bounded {s : St} (j' : String) (h : activeBounded s) :
    activeBounded (sweepOne s j') := by
  unfold sweepOne
  cases hl : alistFind s.leases j' with
  | none => exact h
  | some lease =>
    dsimp only
    have hmid : activeBounded { s with leases := alistErase s.leases j' } := h
    cases hwid : lease.workerId with
    | none =>
      dsimp only
      split
      all_goals intro p hp
      all_goals simp only [set_job_workers, push_event_workers, enqueue_job_workers] at hp
      all_goals exact hmid p hp
    | some lwid =>
      dsimp only
      split
      all_goals split
      all_goals intro p hp
      all_goals simp only [set_job_workers, push_event_workers, enqueue_job_workers] at hp
      all_goals first
        | exact decWorkerActive_bounded lwid hmid p hp
        | exact hmid p hp

theorem lease_sweeper_tick_bounded (s : St) (now : Nat) (h : activeBounded s) :
    activeBounded (lease_sweeper_tick s now) := by
  unfold lease_sweeper_tick
  generalize expiredIds s now = ids
  induction ids generalizing s with
  | nil => exact h
  | cons a t ih =>
    rw [List.foldl_cons]
    exact ih (sweepOne s a) (sweepOne_bounded a h)

theorem worker_lease_bounded (s : St) (wid : String) (wants act : Int) (now : Nat)
    (sg : Bool) (h : activeBounded s)
    (hact : ∀ w, alistFind s.workers wid = some w → 0 ≤ act ∧ act ≤ w.capacity) :
    activeBounded (worker_lease s wid wants act now sg).2 := by
  have key : ∀ (res : LeaseResp) (s₂ : St), worker_lease s wid wants act now sg = (res, s₂) →
      activeBounded s₂ := by
    intro res s₂ hr
    rw [worker_lease] at hr
    cases hfind : alistFind s.workers wid
    case none =>
      rw [hfind] at hr
      dsimp only at hr
      rw [Prod.mk.injEq] at hr
      rw [← hr.2]
      exact h
    case some w =>
      have hrefresh : activeBounded
          { s with workers := alistSet s.workers wid { w with lastSeenTs := now, active := act } } :=
        fun p hp => workersBounded_set h (hact w hfind) p hp
      rw [hfind] at hr
      dsimp only at hr
      split at hr
      case isTrue =>
        rw [Prod.mk.injEq] at hr
        rw [← hr.2]
        exact hrefresh
      case isFalse hg =>
        have hincr : act + 1 ≤ w.capacity := by
          have h1 : (0 ⊔ wants) ⊓ ((0 ⊔ (w.capacity - act)) ⊓ 1) ≤ 0 ⊔ (w.capacity - act) :=
            le_trans (min_le_right _ _) (min_le_left _ _)
          have h2 : (0 : Int) < 0 ⊔ (w.capacity - act) := lt_of_lt_of_le (lt_of_not_le hg) h1
          rcases le_or_lt (w.capacity - act) 0 with hle | hlt
          · rw [sup_eq_left.mpr hle] at h2
            exact absurd h2 (lt_irrefl 0)
          · omega
        rcases hdq : dequeue_job
            { s with workers := alistSet s.workers wid { w with lastSeenTs := now, active := act } }
          with ⟨o, s₁⟩
        have hs₁ : activeBounded s₁ := by
          cases o with
          | none =>
            rw [dequeue_job_none hdq]
            exact hrefresh
          | some jid =>
            intro p hp
            rw [(dequeue_job_some hdq).2.2.1] at hp
            exact hrefresh p hp
        have hs₁w : s₁.workers = alistSet s.workers wid { w with lastSeenTs := now, active := act } := by
          cases o with
          | none => rw [dequeue_job_none hdq]
          | some jid => exact (dequeue_job_some hdq).2.2.1
        rw [hdq] at hr
        cases o with
        | none =>
          dsimp only at hr
          rw [Prod.mk.injEq] at hr
          rw [← hr.2]
          exact hs₁
        | some jid =>
          dsimp only at hr
          cases hjob : alistFind s₁.jobs jid with
          | none =>
            rw [hjob] at hr
            dsimp only at hr
            rw [Prod.mk.injEq] at hr
            rw [← hr.2]
            exact hs₁
          | some job =>
            rw [hjob] at hr
            dsimp only at hr
            cases hip : job.inputPath with
            | none =>
              rw [hip] at hr
              dsimp only at hr
              rw [Prod.mk.injEq] at hr
              rw [← hr.2]
              exact fun p hp => hs₁ p hp
            | some ipath =>
              rw [hip] at hr
              dsimp only at hr
              by_cases hsg : (!sg) = true
              · rw [if_pos hsg] at hr
                rw [Prod.mk.injEq] at hr
                rw [← hr.2]
                exact fun p hp => hs₁ p hp
              · rw [if_neg hsg] at hr
                rw [Prod.mk.injEq] at hr
                rw [← hr.2]
                intro p hp
                simp only [set_job_workers, push_event_workers] at hp
                have hpre : ∀ q ∈ s₁.workers, 0 ≤ q.2.active ∧ q.2.active ≤ q.2.capacity := by
                  intro q hq
                  rw [hs₁w] at hq
                  exact hrefresh q hq
                refine workersBounded_set hpre ⟨?_, ?_⟩ p hp
                · show (0 : Int) ≤ act + 1
                  obtain ⟨ha0, _⟩ := hact w hfind
                  omega
                · show act + 1 ≤ w.capacity
                  exact hincr
  exact key _ _ rfl

theorem worker_result_bounded (s : St) (wid jid : String) (readOk uploadOk : Bool)
    (h : activeBounded s) : activeBounded (worker_result s wid jid readOk uploadOk).2 := by
  unfold worker_result
  cases hl : alistFind s.leases jid with
  | none => exact h
  | some lease =>
    cases hw : alistFind s.workers wid with
    | none => exact h
    | some w =>
      dsimp only
      split
      · split
        · exact h
        · split
          · intro p hp
            simp only [set_job_workers, push_event_workers] at hp
            exact decWorkerActive_bounded wid h p hp
          · intro p hp
            dsimp only at hp
            refine decWorkerActive_bounded wid ?_ p hp
            exact fun q hq => h q hq
      · exact h

theorem worker_error_bounded (s : St) (wid jid t : String) (h : activeBounded s) :
    activeBounded (worker_error s wid jid t).2 := by
  unfold worker_error
  cases hw : alistFind s.workers wid with
  | none => exact h
  | some w =>
    dsimp only
    split
    all_goals intro p hp
    all_goals simp only [set_job_workers, push_event_workers, enqueue_job_workers] at hp
    all_goals exact decWorkerActive_bounded wid h p hp

theorem job_cancel_bounded (s : St) (jid : String) (h : activeBounded s) :
    activeBounded (job_cancel s jid).2 := by
  unfold job_cancel
  cases hj : alistFind s.jobs jid with
  | none => exact h
  | some j =>
    dsimp only
    have hmid : activeBounded { s with leases := alistErase s.leases jid } := h
    cases hl : alistFind s.leases jid with
    | none =>
      intro p hp
      simp only [set_job_workers, push_event_workers] at hp
      exact hmid p hp
    | some lease =>
      dsimp only
      cases hwid : lease.workerId with
      | none =>
        intro p hp
        simp only [set_job_workers, push_event_workers] at hp
        exact hmid p hp
      | some lwid =>
        dsimp only
        split
        all_goals intro p hp
        all_goals simp only [set_job_workers, push_event_workers] at hp
        all_goals first
          | exact decWorkerActive_bounded lwid hmid p hp
          | exact hmid p hp

theorem worker_register_bounded (s : St) (wid : String) (cap : Int) (now : Nat)
    (h : activeBounded s) : activeBounded (worker_register s wid cap now) := by
  intro p hp
  refine workersBounded_set h ⟨le_refl 0, ?_⟩ p hp
  exact le_trans zero_le_one (le_max_left 1 cap)

theorem worker_heartbeat_bounded (s : St) (wid : String) (now : Nat)
    (h : activeBounded s) : activeBounded (worker_heartbeat s wid now).2 := by
  unfold worker_heartbeat
  cases hw : alistFind s.workers wid with
  | none => exact h
  | some w =>
    dsimp only
    obtain ⟨h0, hc⟩ := h (wid, w) (alistFind_mem hw)
    simp only at h0 hc
    intro p hp
    dsimp only at hp
    refine workersBounded_set h ⟨?_, ?_⟩ p hp
    · exact h0
    · exact hc

theorem create_job_common_workers (s : St) (jid fn ip : String) (ips : List String)
    (ro uo : Bool) : (create_job_common s jid fn ip ips ro uo).2.workers = s.workers := by
  unfold create_job_common
  split
  · rfl
  · split
    · rfl
    · simp only [push_event_workers]
      split <;> rfl

theorem job_retry_workers (s : St) (jid nid : String) (ips : List String) :
    (job_retry s jid nid ips).2.workers = s.workers := by
  unfold job_retry
  cases hj : alistFind s.jobs jid with
  | none => rfl
  | some j =>
    dsimp only
    cases hip : j.inputPath with
    | none => rfl
    | some ip =>
      dsimp only
      simp only [push_event_workers, enqueue_job_workers]

/-- C9 counterexample: the lease endpoint overwrites `active` with the
worker-reported value without validation.  A worker of capacity 1 that
reports `active = 2` ends up with `active = 2 > capacity = 1` in the
registry (the call itself grants nothing, but the out-of-range count is
stored), so `0 ≤ active ≤ capacity` is not preserved by every operation. -/
theorem c9_counterexample :
    alistFind (worker_lease (worker_register St.empty "w1" 1 0) "w1" 0 2 5 true).2.workers "w1" =
      some { capacity := 1, active := 2, lastSeenTs := 5 } ∧
    ¬ ((2 : Int) ≤ 1) := by
  constructor
  · decide
  · decide

/-- C9 amended: `0 ≤ active ≤ capacity` holds at every settled state
provided each lease call reports an `active` within `[0, capacity]`:
registration starts at `active = 0` with capacity ≥ 1, heartbeat keeps the
counts, a lease call that reports in-range `active` stores it and grants at
most one job only when a slot is free (`active + 1 ≤ capacity`), and every
decrement (result, error, cancel, sweeper) clamps at 0.  Without that
proviso the bound fails, because the lease endpoint stores the reported
value unvalidated. -/
theorem c9_amended :
    (∀ (s : St) (wid : String) (cap : Int) (now : Nat),
      activeBounded s → activeBounded (worker_register s wid cap now))
    ∧ (∀ (s : St) (wid : String) (now : Nat),
      activeBounded s → activeBounded (worker_heartbeat s wid now).2)
    ∧ (∀ (s : St) (wid : String) (wants act : Int) (now : Nat) (sg : Bool),
      activeBounded s →
      (∀ w, alistFind s.workers wid = some w → 0 ≤ act ∧ act ≤ w.capacity) →
      activeBounded (worker_lease s wid wants act now sg).2)
    ∧ (∀ (s : St) (wid jid : String) (ro uo : Bool),
      activeBounded s → activeBounded (worker_result s wid jid ro uo).2)
    ∧ (∀ (s : St) (wid jid t : String),
      activeBounded s → activeBounded (worker_error s wid jid t).2)
    ∧ (∀ (s : St) (jid : String),
      activeBounded s → activeBounded (job_cancel s jid).2)
    ∧ (∀ (s : St) (now : Nat),
      activeBounded s → activeBounded (lease_sweeper_tick s now))
    ∧ (∀ (s : St) (jid fn ip : String) (ips : List String) (ro uo : Bool),
      activeBounded s → activeBounded (create_job_common s jid fn ip ips ro uo).2)
    ∧ (∀ (s : St) (jid nid : String) (ips : List String),
      activeBounded s → activeBounded (job_retry s jid nid ips).2) :=
  ⟨fun s wid cap now h => worker_register_bounded s wid cap now h,
   fun s wid now h => worker_heartbeat_bounded s wid now h,
   fun s wid wants act now sg h hact => worker_lease_bounded s wid wants act now sg h hact,
   fun s wid jid ro uo h => worker_result_bounded s wid jid ro uo h,
   fun s wid jid t h => worker_error_bounded s wid jid t h,
   fun s jid h => job_cancel_bounded s jid h,
   fun s now h => lease_sweeper_tick_bounded s now h,
   fun s jid fn ip ips ro uo h => by
     intro p hp
     rw [create_job_common_workers] at hp
     exact h p hp,
   fun s jid nid ips h => by
     intro p hp
     rw [job_retry_workers] at hp
     exact h p hp⟩

/-- C9 witness: a capacity-1 worker reporting `active = 0` is granted one
job and its stored count stays within `[0, capacity]`. -/
theorem c9_witness :
    activeBounded (worker_lease
      { qp1 := ["a"], workers := [("w1", ⟨1, 0, 0⟩)],
        jobs := [("a", { status := "queued", inputPath := some "p" })] }
      "w1" 1 0 100 true).2 :=
  c9_amended.2.2.1
    { qp1 := ["a"], workers := [("w1", ⟨1, 0, 0⟩)],
      jobs := [("a", { status := "queued", inputPath := some "p" })] }
    "w1" 1 0 100 true
    (by unfold activeBounded; decide)
    (by
      intro w hw
      have h2 : some (Worker.mk 1 0 0) = some w := hw
      injection h2 with h3
      rw [← h3]
      exact ⟨le_refl 0, zero_le_one⟩)
